import Mathlib

/- Shallow embedding of the two scripts of the SW-AUTO repository:
   apply_rect_fix.py (the Patcher) and show_lines.py (the Line Finder).
   Text is modelled as a list of characters; the target file's content is
   passed in and the content after the run is returned explicitly, so that
   writes (and their absence) are visible in the result. -/

/-- Boolean test that the list pat is a prefix of s: the
character-by-character comparison underlying the Python substring
operator and str.replace. -/
def prefixMatch : List Char → List Char → Bool
  | [], _ => true
  | _ :: _, [] => false
  | p :: ps, c :: cs => p == c && prefixMatch ps cs

/-- The pattern pat occurs in s at position i. -/
def occursAt (pat s : List Char) (i : Nat) : Prop :=
  (s.drop i).take pat.length = pat

instance occursAtDecidable (pat s : List Char) (i : Nat) :
    Decidable (occursAt pat s i) :=
  inferInstanceAs (Decidable ((s.drop i).take pat.length = pat))

/-- Index of the leftmost occurrence of pat in s, none when pat does not
occur: the search Python performs both for the substring operator and for
str.replace with count 1. -/
def findPat (pat : List Char) : List Char → Option Nat
  | [] => if prefixMatch pat [] then some 0 else none
  | c :: rest =>
    if prefixMatch pat (c :: rest) then some 0
    else (findPat pat rest).map (fun k => k + 1)

/-- Python's substring containment test, the expression old in text of
apply_rect_fix.py line 6. -/
def containsPat (pat s : List Char) : Bool :=
  (findPat pat s).isSome

/-- Python's text.replace(old, new, 1) of apply_rect_fix.py line 8:
replace the leftmost occurrence of old by new; return s unchanged when
old does not occur. -/
def replaceFirst (s old new : List Char) : List Char :=
  match findPat old s with
  | none => s
  | some i => s.take i ++ new ++ s.drop (i + old.length)

/-- Number of positions at which pat occurs in s. -/
def occCount (pat s : List Char) : Nat :=
  ((List.range (s.length + 1)).filter (fun i => decide (occursAt pat s i))).length

/-- Outcome of one run of the Patcher script: success, or the abort that
apply_rect_fix.py performs (SystemExit with the message pattern not found,
the PatternNotFoundError of the specification). -/
inductive PatchOutcome where
  | success : PatchOutcome
  | patternNotFoundError : PatchOutcome
deriving DecidableEq

/-- apply_rect_fix.py: read the file content fs; abort before any write
when old does not occur in it; otherwise overwrite the file with the
content in which the first occurrence of old is replaced by new.  The
result is the outcome paired with the file content after the run. -/
def apply_rect_fix (old new fs : List Char) : PatchOutcome × List Char :=
  if containsPat old fs then (PatchOutcome.success, replaceFirst fs old new)
  else (PatchOutcome.patternNotFoundError, fs)

theorem prefixMatch_iff (pat s : List Char) :
    prefixMatch pat s = true ↔ s.take pat.length = pat := by
  induction pat generalizing s with
  | nil => simp [prefixMatch]
  | cons p ps ih =>
    cases s with
    | nil => simp [prefixMatch]
    | cons c cs =>
      simp only [prefixMatch, Bool.and_eq_true, beq_iff_eq, ih, List.length_cons,
        List.take_succ_cons, List.cons.injEq]
      constructor
      · rintro ⟨h1, h2⟩
        exact ⟨h1.symm, h2⟩
      · rintro ⟨h1, h2⟩
        exact ⟨h1.symm, h2⟩

theorem occursAt_zero (pat s : List Char) :
    occursAt pat s 0 ↔ prefixMatch pat s = true := by
  simp [occursAt, prefixMatch_iff]

theorem occursAt_succ (pat : List Char) (c : Char) (t : List Char) (j : Nat) :
    occursAt pat (c :: t) (j + 1) ↔ occursAt pat t j := by
  simp [occursAt]

theorem findPat_some (pat : List Char) :
    ∀ (s : List Char) (i : Nat), findPat pat s = some i →
      occursAt pat s i ∧ ∀ j, j < i → ¬ occursAt pat s j := by
  intro s
  induction s with
  | nil =>
    intro i h
    simp only [findPat] at h
    split at h
    · rename_i hp
      injection h with h0
      subst h0
      exact ⟨(occursAt_zero pat []).mpr hp, fun j hj => absurd hj (Nat.not_lt_zero j)⟩
    · exact Option.noConfusion h
  | cons c t ih =>
    intro i h
    simp only [findPat] at h
    split at h
    · rename_i hp
      injection h with h0
      subst h0
      exact ⟨(occursAt_zero pat (c :: t)).mpr hp,
        fun j hj => absurd hj (Nat.not_lt_zero j)⟩
    · rename_i hp
      rcases hmap : findPat pat t with _ | k
      · rw [hmap] at h
        exact Option.noConfusion h
      · rw [hmap] at h
        simp only [Option.map_some'] at h
        injection h with h0
        subst h0
        obtain ⟨ho, hmin⟩ := ih k hmap
        constructor
        · exact (occursAt_succ pat c t k).mpr ho
        · intro j hj
          cases j with
          | zero =>
            intro hocc
            exact hp ((occursAt_zero pat (c :: t)).mp hocc)
          | succ j2 =>
            intro hocc
            exact hmin j2 (by omega) ((occursAt_succ pat c t j2).mp hocc)

theorem findPat_none (pat : List Char) :
    ∀ s : List Char, findPat pat s = none → ∀ j, ¬ occursAt pat s j := by
  intro s
  induction s with
  | nil =>
    intro h j hocc
    simp only [findPat] at h
    split at h
    · exact Option.noConfusion h
    · rename_i hp
      have hpat : pat = [] := by
        unfold occursAt at hocc
        simpa using hocc.symm
      subst hpat
      exact hp rfl
  | cons c t ih =>
    intro h j hocc
    simp only [findPat] at h
    split at h
    · exact Option.noConfusion h
    · rename_i hp
      have ht : findPat pat t = none := by
        rcases hmap : findPat pat t with _ | k
        · rfl
        · rw [hmap] at h
          simp at h
      cases j with
      | zero => exact hp ((occursAt_zero pat (c :: t)).mp hocc)
      | succ j2 => exact ih ht j2 ((occursAt_succ pat c t j2).mp hocc)

theorem findPat_le_length (pat : List Char) :
    ∀ (s : List Char) (i : Nat), findPat pat s = some i → i ≤ s.length := by
  intro s
  induction s with
  | nil =>
    intro i h
    simp only [findPat] at h
    split at h
    · injection h with h0
      omega
    · exact Option.noConfusion h
  | cons c t ih =>
    intro i h
    simp only [findPat] at h
    split at h
    · injection h with h0
      simp only [List.length_cons]
      omega
    · rcases hmap : findPat pat t with _ | k
      · rw [hmap] at h
        exact Option.noConfusion h
      · rw [hmap] at h
        simp only [Option.map_some'] at h
        injection h with h0
        have hk := ih k hmap
        simp only [List.length_cons]
        omega

theorem containsPat_iff (pat s : List Char) :
    containsPat pat s = true ↔ ∃ i, occursAt pat s i := by
  unfold containsPat
  rcases hf : findPat pat s with _ | i
  · simp only [Option.isSome_none, Bool.false_eq_true, false_iff]
    rintro ⟨i, hi⟩
    exact findPat_none pat s hf i hi
  · simp only [Option.isSome_some, true_iff]
    exact ⟨i, (findPat_some pat s i hf).1⟩

theorem occursAt_decompose (pat s : List Char) (i : Nat) (h : occursAt pat s i) :
    s.take i ++ pat ++ s.drop (i + pat.length) = s := by
  have hd : s.drop (i + pat.length) = (s.drop i).drop pat.length := by
    rw [← List.drop_drop]
  have h2 : pat ++ (s.drop i).drop pat.length = s.drop i := by
    conv_rhs => rw [← List.take_append_drop pat.length (s.drop i)]
    rw [h]
  rw [hd, List.append_assoc, h2, List.take_append_drop]

/-- Claim C1: for every file content containing oldText at least once, the
Patcher succeeds and replaces exactly the first occurrence (in document
order) of oldText with newText; the text before and after that occurrence
— including any later occurrences of oldText, which sit inside the
unchanged suffix — is kept byte-for-byte, and the full resulting content
is written back to the file. -/
theorem patch_replaces_first_occurrence (old new fs : List Char)
    (h : ∃ i, occursAt old fs i) :
    ∃ i, (apply_rect_fix old new fs).1 = PatchOutcome.success ∧
      occursAt old fs i ∧ (∀ j, j < i → ¬ occursAt old fs j) ∧
      fs.take i ++ old ++ fs.drop (i + old.length) = fs ∧
      (apply_rect_fix old new fs).2 = fs.take i ++ new ++ fs.drop (i + old.length) := by
  have hc : containsPat old fs = true := (containsPat_iff old fs).mpr h
  rcases hf : findPat old fs with _ | i
  · rw [containsPat, hf] at hc
    simp at hc
  · obtain ⟨ho, hmin⟩ := findPat_some old fs i hf
    refine ⟨i, ?_, ho, hmin, occursAt_decompose old fs i ho, ?_⟩
    · simp [apply_rect_fix, hc]
    · simp [apply_rect_fix, hc, replaceFirst, hf]

theorem patch_replaces_first_occurrence_witness :
    (∃ i, occursAt ['b'] ['a', 'b', 'b'] i) ∧
    ∃ i, (apply_rect_fix ['b'] ['X'] ['a', 'b', 'b']).1 = PatchOutcome.success ∧
      occursAt ['b'] ['a', 'b', 'b'] i ∧
      (∀ j, j < i → ¬ occursAt ['b'] ['a', 'b', 'b'] j) ∧
      (['a', 'b', 'b'].take i) ++ ['b'] ++ (['a', 'b', 'b'].drop (i + ['b'].length))
        = ['a', 'b', 'b'] ∧
      (apply_rect_fix ['b'] ['X'] ['a', 'b', 'b']).2
        = (['a', 'b', 'b'].take i) ++ ['X'] ++ (['a', 'b', 'b'].drop (i + ['b'].length)) :=
  ⟨⟨1, by decide⟩, patch_replaces_first_occurrence ['b'] ['X'] ['a', 'b', 'b'] ⟨1, by decide⟩⟩

/-- Claim C2: for every file content not containing oldText, the Patcher
aborts with the pattern-not-found error and performs no write: the file
content after the run equals the content before it. -/
theorem patch_missing_pattern_no_write (old new fs : List Char)
    (h : ∀ i, ¬ occursAt old fs i) :
    apply_rect_fix old new fs = (PatchOutcome.patternNotFoundError, fs) := by
  have hc : containsPat old fs = false := by
    cases hcb : containsPat old fs
    · rfl
    · obtain ⟨i, hi⟩ := (containsPat_iff old fs).mp hcb
      exact absurd hi (h i)
  simp [apply_rect_fix, hc]

theorem patch_missing_pattern_no_write_witness :
    (∀ i, ¬ occursAt ['z'] ['a', 'b'] i) ∧
    apply_rect_fix ['z'] ['X'] ['a', 'b'] = (PatchOutcome.patternNotFoundError, ['a', 'b']) :=
  ⟨fun i => findPat_none ['z'] ['a', 'b'] (by decide) i,
    patch_missing_pattern_no_write ['z'] ['X'] ['a', 'b']
      (fun i => findPat_none ['z'] ['a', 'b'] (by decide) i)⟩

/- The Line Finder, show_lines.py.  The script reads the file, splits the
   content into lines, scans for the first line containing the marker
   FullyDefineSketch (modelled as a parameter), and prints a window
   computed as range(idx-2, min(idx+3, len(lines))), indexing the line
   list with the raw loop variable j (so a negative j wraps around as in
   Python, and may raise an IndexError) and labelling each printed line
   with format(j+1, 04d). -/

/-- Characters Python's str.splitlines treats as line boundaries. -/
def isLineBreak (c : Char) : Bool :=
  c == '\n' || c == '\r' || c == Char.ofNat 0x0B || c == Char.ofNat 0x0C ||
  c == Char.ofNat 0x1C || c == Char.ofNat 0x1D || c == Char.ofNat 0x1E ||
  c == Char.ofNat 0x85 || c == Char.ofNat 0x2028 || c == Char.ofNat 0x2029

/-- Worker for splitlines: cur holds the characters of the current line in
reverse; a carriage return immediately followed by a newline counts as a
single boundary, and a boundary at the very end opens no further line. -/
def splitlinesAux (cur : List Char) : List Char → List (List Char)
  | [] => [cur.reverse]
  | ['\r'] => [cur.reverse]
  | '\r' :: '\n' :: [] => [cur.reverse]
  | '\r' :: '\n' :: c :: rest => cur.reverse :: splitlinesAux [] (c :: rest)
  | '\r' :: c :: rest => cur.reverse :: splitlinesAux [] (c :: rest)
  | c :: [] => if isLineBreak c then [cur.reverse] else [(c :: cur).reverse]
  | c :: d :: rest =>
    if isLineBreak c then cur.reverse :: splitlinesAux [] (d :: rest)
    else splitlinesAux (c :: cur) (d :: rest)

/-- Python's str.splitlines, as used in show_lines.py line 2. -/
def splitlines (s : List Char) : List (List Char) :=
  match s with
  | [] => []
  | c :: rest => splitlinesAux [] (c :: rest)

/-- Python list indexing lines[j] with a possibly negative index: a
negative j counts from the end of the list, and an index out of range on
either side yields none (an IndexError). -/
def pyGet {α : Type} (l : List α) (j : Int) : Option α :=
  let k : Int := if j < 0 then (l.length : Int) + j else j
  if k < 0 then none else l.get? k.toNat

/-- The line stored at 0-based position k, taken as empty when k is out of
range (used only at in-range positions in the statements below). -/
def lineAt (lines : List (List Char)) (k : Nat) : List Char :=
  (lines.get? k).getD []

/-- Decimal digits of a natural number. -/
def natDigits (n : Nat) : List Char :=
  Nat.toDigits 10 n

/-- Left-pad with zeros to width w. -/
def padZeros (w : Nat) (s : List Char) : List Char :=
  List.replicate (w - s.length) '0' ++ s

/-- Python's format(m, 04d): total width 4, zero padding inserted after
the sign. -/
def fmt04 (m : Int) : List Char :=
  if m < 0 then '-' :: padZeros 3 (natDigits m.natAbs)
  else padZeros 4 (natDigits m.toNat)

/-- The integers lo, lo+1, ..., hi-1, Python's range(lo, hi). -/
def intRange (lo hi : Int) : List Int :=
  (List.range (hi - lo).toNat).map (fun k : Nat => lo + (k : Int))

/-- The printing loop of show_lines.py lines 5-6: for each loop index j
emit the line format(j+1, 04d) ++ ": " ++ lines[j]; the Boolean records
whether an IndexError was raised, in which case the lines printed before
the failing iteration are kept and the loop stops. -/
def emitWindow (lines : List (List Char)) : List Int → List (List Char) × Bool
  | [] => ([], false)
  | j :: js =>
    match pyGet lines j with
    | none => ([], true)
    | some l =>
      ((fmt04 (j + 1) ++ ':' :: ' ' :: l) :: (emitWindow lines js).1,
        (emitWindow lines js).2)

/-- Index of the first line containing the marker, the scan of
show_lines.py lines 3-4. -/
def findLineIdx (marker : List Char) : List (List Char) → Option Nat
  | [] => none
  | l :: rest =>
    if containsPat marker l then some 0
    else (findLineIdx marker rest).map (fun k => k + 1)

/-- Result of one run of the Line Finder: the list of printed lines on a
normal exit, or the printed lines up to an uncaught IndexError. -/
inductive ShowResult where
  | ok : List (List Char) → ShowResult
  | crash : List (List Char) → ShowResult
deriving DecidableEq

/-- show_lines.py on an already split line list: find the first line
containing the marker; when none does, print the notice no match;
otherwise run the printing loop over range(idx-2, min(idx+3, len(lines))). -/
def show_lines (lines : List (List Char)) (marker : List Char) : ShowResult :=
  match findLineIdx marker lines with
  | none => ShowResult.ok [String.toList "no match"]
  | some idx =>
    if (emitWindow lines (intRange ((idx : Int) - 2)
        (min ((idx : Int) + 3) (lines.length : Int)))).2 then
      ShowResult.crash (emitWindow lines (intRange ((idx : Int) - 2)
        (min ((idx : Int) + 3) (lines.length : Int)))).1
    else
      ShowResult.ok (emitWindow lines (intRange ((idx : Int) - 2)
        (min ((idx : Int) + 3) (lines.length : Int)))).1

/-- The whole script run against a file: the content fs is read and split,
the report is produced, and the file content after the run is returned;
show_lines.py contains no write. -/
def show_lines_run (fs marker : List Char) : ShowResult × List Char :=
  (show_lines (splitlines fs) marker, fs)

theorem findLineIdx_none (marker : List Char) :
    ∀ ls : List (List Char), (∀ l ∈ ls, containsPat marker l = false) →
      findLineIdx marker ls = none := by
  intro ls
  induction ls with
  | nil => intro _; rfl
  | cons a rest ih =>
    intro h
    simp only [findLineIdx, h a (List.mem_cons_self a rest), Bool.false_eq_true,
      if_false]
    rw [ih (fun x hx => h x (List.mem_cons_of_mem a hx))]
    rfl

/-- Claim C6: for every line list and marker such that no line contains the
marker as a substring, the Line Finder prints exactly the single fixed
notice no match and no line window, and terminates normally (an ok result,
not a crash). -/
theorem show_lines_no_match (lines : List (List Char)) (marker : List Char)
    (h : ∀ l ∈ lines, containsPat marker l = false) :
    show_lines lines marker = ShowResult.ok [String.toList "no match"] := by
  simp only [show_lines, findLineIdx_none marker lines h]

theorem show_lines_no_match_witness :
    (∀ l ∈ ([['a', 'b'], ['c']] : List (List Char)), containsPat ['z'] l = false) ∧
    show_lines [['a', 'b'], ['c']] ['z'] = ShowResult.ok [String.toList "no match"] :=
  ⟨by decide, show_lines_no_match [['a', 'b'], ['c']] ['z'] (by decide)⟩

/-- Claim C7: for every file content and marker, the Line Finder never
mutates the target file: the file content after the run equals the content
before it. -/
theorem show_lines_preserves_file (fs marker : List Char) :
    (show_lines_run fs marker).2 = fs := rfl

/-- Claim C8: on the file whose lines are A, B, FullyDefineSketch(...), C, D
with marker FullyDefineSketch (first match at 0-based index 2), the Line
Finder prints all five lines, prefixed 0001: through 0005:, in order. -/
theorem show_lines_concrete_scenario :
    show_lines [String.toList "A", String.toList "B",
        String.toList "FullyDefineSketch(...)", String.toList "C", String.toList "D"]
      (String.toList "FullyDefineSketch")
    = ShowResult.ok [String.toList "0001: A", String.toList "0002: B",
        String.toList "0003: FullyDefineSketch(...)", String.toList "0004: C",
        String.toList "0005: D"] := by
  decide

/-- Claim C9: on a file consisting of exactly one line that contains the
marker (first match at index 0, n = 1), the printing loop starts at index
-2, which is out of range even for Python's wraparound indexing, so the run
stops with an IndexError before printing anything: no window and no
no-match notice is produced. -/
theorem show_lines_single_line_crash (l marker : List Char)
    (h : containsPat marker l = true) :
    show_lines [l] marker = ShowResult.crash [] := by
  have hidx : findLineIdx marker [l] = some 0 := by
    simp [findLineIdx, h]
  simp only [show_lines, hidx]
  rfl

theorem show_lines_single_line_crash_witness :
    containsPat ['a'] ['a', 'b'] = true ∧
    show_lines [['a', 'b']] ['a'] = ShowResult.crash [] :=
  ⟨by decide, show_lines_single_line_crash ['a', 'b'] ['a'] (by decide)⟩

theorem mem_intRange (lo hi j : Int) :
    j ∈ intRange lo hi ↔ lo ≤ j ∧ j < hi := by
  unfold intRange
  rw [List.mem_map]
  constructor
  · rintro ⟨k, hk, rfl⟩
    rw [List.mem_range] at hk
    omega
  · rintro ⟨h1, h2⟩
    refine ⟨(j - lo).toNat, ?_, ?_⟩
    · rw [List.mem_range]
      omega
    · omega

theorem pyGet_nonneg {α : Type} (l : List α) (j : Int) (h : 0 ≤ j) :
    pyGet l j = l.get? j.toNat := by
  simp only [pyGet]
  rw [if_neg (by omega), if_neg (by omega)]

theorem pyGet_neg {α : Type} (l : List α) (j : Int) (hj : j < 0)
    (h : 0 ≤ (l.length : Int) + j) :
    pyGet l j = l.get? ((l.length : Int) + j).toNat := by
  simp only [pyGet]
  rw [if_pos hj, if_neg (by omega)]

theorem get?_isSome_of_lt {α : Type} (l : List α) (m : Nat) (h : m < l.length) :
    (l.get? m).isSome = true := by
  rw [List.get?_eq_get h]
  rfl

theorem emitWindow_ok (lines : List (List Char)) :
    ∀ js : List Int, (∀ j ∈ js, (pyGet lines j).isSome = true) →
      emitWindow lines js
        = (js.map (fun j => fmt04 (j + 1) ++ ':' :: ' ' :: ((pyGet lines j).getD [])),
            false) := by
  intro js
  induction js with
  | nil => intro _; rfl
  | cons j js ih =>
    intro h
    have hj := h j (List.mem_cons_self j js)
    obtain ⟨l, hl⟩ := Option.isSome_iff_exists.mp hj
    simp only [emitWindow, hl, List.map_cons]
    rw [ih (fun x hx => h x (List.mem_cons_of_mem j hx))]
    simp [hl]

/-- Claim C10: for every file of at least two lines whose first marker
match is at 0-based index i with i less than 2, the Line Finder does not
clamp the lower bound of the window: it iterates j over
range(i-2, min(i+3, n)) and, for negative j, prints the line stored at
index n+j (a line from the end of the file) labelled fmt04 (j+1) (a label
that is non-positive, such as -001 or 0000), instead of starting the
window at line 0. -/
theorem show_lines_no_lower_clamp (lines : List (List Char)) (marker : List Char)
    (i : Nat) (hn : 2 ≤ lines.length) (hfind : findLineIdx marker lines = some i)
    (hi : i < 2) :
    show_lines lines marker = ShowResult.ok
      ((intRange ((i : Int) - 2) (min ((i : Int) + 3) (lines.length : Int))).map
        (fun j => fmt04 (j + 1) ++ ':' :: ' ' ::
          (if j < 0 then lineAt lines (lines.length - (-j).toNat)
           else lineAt lines j.toNat))) := by
  have hmem : ∀ j ∈ intRange ((i : Int) - 2) (min ((i : Int) + 3) (lines.length : Int)),
      (pyGet lines j).isSome = true := by
    intro j hj
    rw [mem_intRange] at hj
    obtain ⟨h1, h2⟩ := hj
    by_cases hjn : j < 0
    · rw [pyGet_neg lines j hjn (by omega)]
      exact get?_isSome_of_lt lines _ (by omega)
    · rw [pyGet_nonneg lines j (by omega)]
      exact get?_isSome_of_lt lines _ (by omega)
  have hout := emitWindow_ok lines _ hmem
  simp only [show_lines, hfind, hout]
  simp only [Bool.false_eq_true, if_false]
  apply congrArg
  apply List.map_congr_left
  intro j hj
  rw [mem_intRange] at hj
  obtain ⟨h1, h2⟩ := hj
  by_cases hjn : j < 0
  · rw [if_pos hjn, pyGet_neg lines j hjn (by omega)]
    have hk : ((lines.length : Int) + j).toNat = lines.length - (-j).toNat := by
      omega
    rw [hk]
    rfl
  · rw [if_neg hjn, pyGet_nonneg lines j (by omega)]
    rfl

theorem show_lines_no_lower_clamp_witness :
    2 ≤ ([['a'], ['b'], ['c']] : List (List Char)).length ∧
    findLineIdx ['a'] [['a'], ['b'], ['c']] = some 0 ∧
    (0 : Nat) < 2 ∧
    show_lines [['a'], ['b'], ['c']] ['a'] = ShowResult.ok
      ((intRange (((0 : Nat) : Int) - 2)
          (min (((0 : Nat) : Int) + 3) (([['a'], ['b'], ['c']] : List (List Char)).length : Int))).map
        (fun j => fmt04 (j + 1) ++ ':' :: ' ' ::
          (if j < 0 then
            lineAt [['a'], ['b'], ['c']] (([['a'], ['b'], ['c']] : List (List Char)).length - (-j).toNat)
           else lineAt [['a'], ['b'], ['c']] j.toNat))) :=
  ⟨by decide, by decide, by decide,
    show_lines_no_lower_clamp [['a'], ['b'], ['c']] ['a'] 0 (by decide) (by decide)
      (by decide)⟩

/-- Claim C3 (evaluation at the failing input): on the file whose lines are
M1, B, C with marker M, matched at index 0 in a 3-line file, the claim
asks for exactly the lines with indices 0 through 2, labelled 0001: to
0003:.  The script instead prints five entries, beginning with the last
two lines of the file under the non-positive labels -001: and 0000:,
because the lower bound of range(idx-2, min(idx+3, len(lines))) is not
clamped at 0. -/
theorem show_lines_window_at_top_unclamped :
    show_lines [String.toList "M1", String.toList "B", String.toList "C"]
      (String.toList "M")
    = ShowResult.ok [String.toList "-001: B", String.toList "0000: C",
        String.toList "0001: M1", String.toList "0002: B", String.toList "0003: C"] := by
  decide

/-- Claim C4 as stated is false: the file content ab contains the pattern b
exactly once, the patch with replacement a produces aa, but replacing the
first occurrence of the new text a back by b yields ba, not the original
ab — the first occurrence of the new text in the patched content need not
be the inserted one. -/
theorem patch_round_trip_cex :
    occCount ['b'] ['a', 'b'] = 1 ∧
    replaceFirst (replaceFirst ['a', 'b'] ['b'] ['a']) ['a'] ['b'] ≠ ['a', 'b'] := by
  decide

/-- Claim C4 (amended): for every file content containing oldText exactly
once, if the first occurrence of newText in the patched content sits at
the same position as the replaced occurrence of oldText, then replacing
the first occurrence of newText back by oldText reproduces the original
content byte-for-byte. -/
theorem patch_round_trip (old new fs : List Char) (i : Nat)
    (hone : occCount old fs = 1)
    (hf : findPat old fs = some i)
    (hn : findPat new (replaceFirst fs old new) = some i) :
    replaceFirst (replaceFirst fs old new) new old = fs := by
  have hocc := (findPat_some old fs i hf).1
  have hdec := occursAt_decompose old fs i hocc
  have hlen : i ≤ fs.length := findPat_le_length old fs i hf
  have hti : (fs.take i).length = i := by
    rw [List.length_take]
    exact Nat.min_eq_left hlen
  have hrep : replaceFirst fs old new = fs.take i ++ new ++ fs.drop (i + old.length) := by
    simp [replaceFirst, hf]
  rw [hrep] at hn
  rw [hrep]
  simp only [replaceFirst, hn]
  have htk : (fs.take i ++ new ++ fs.drop (i + old.length)).take i = fs.take i := by
    rw [List.append_assoc]
    exact List.take_left' hti
  have hdr : (fs.take i ++ new ++ fs.drop (i + old.length)).drop (i + new.length)
      = fs.drop (i + old.length) := by
    refine List.drop_left' ?_
    rw [List.length_append, hti]
  rw [htk, hdr]
  exact hdec

theorem patch_round_trip_witness :
    occCount ['a'] ['a', 'b'] = 1 ∧
    findPat ['a'] ['a', 'b'] = some 0 ∧
    findPat ['x'] (replaceFirst ['a', 'b'] ['a'] ['x']) = some 0 ∧
    replaceFirst (replaceFirst ['a', 'b'] ['a'] ['x']) ['x'] ['a'] = ['a', 'b'] :=
  ⟨by decide, by decide, by decide,
    patch_round_trip ['a'] ['x'] ['a', 'b'] 0 (by decide) (by decide) (by decide)⟩

/-- Claim C5 as stated is false: the file content bb contains the pattern b,
the patch with replacement a produces ab, which still contains b (the
second, untouched occurrence), so a second run of the Patcher passes
verification and succeeds instead of failing. -/
theorem patch_rerun_cex :
    containsPat ['b'] ['b', 'b'] = true ∧
    (apply_rect_fix ['b'] ['a'] ((apply_rect_fix ['b'] ['a'] ['b', 'b']).2)).1
      = PatchOutcome.success := by
  decide

/-- Claim C5 (amended): for every file content containing oldText, a second
run of the Patcher on the patched file fails verification exactly when the
patched content no longer contains oldText; when a later occurrence of
oldText survives the patch (or the replacement recreates one), the second
run succeeds and applies again. -/
theorem patch_rerun_fails_iff (old new fs : List Char)
    (h : containsPat old fs = true) :
    ((apply_rect_fix old new ((apply_rect_fix old new fs).2)).1
        = PatchOutcome.patternNotFoundError
      ↔ containsPat old ((apply_rect_fix old new fs).2) = false) := by
  have hsnd : (apply_rect_fix old new fs).2 = replaceFirst fs old new := by
    simp [apply_rect_fix, h]
  rw [hsnd]
  cases hc : containsPat old (replaceFirst fs old new)
  · simp [apply_rect_fix, hc]
  · simp [apply_rect_fix, hc]

theorem patch_rerun_fails_iff_witness :
    containsPat ['b'] ['b'] = true ∧
    ((apply_rect_fix ['b'] ['a'] ((apply_rect_fix ['b'] ['a'] ['b']).2)).1
        = PatchOutcome.patternNotFoundError
      ↔ containsPat ['b'] ((apply_rect_fix ['b'] ['a'] ['b']).2) = false) :=
  ⟨by decide, patch_rerun_fails_iff ['b'] ['a'] ['b'] (by decide)⟩
